import Mathlib

/-!
Shallow embedding of the jQuery file-tree plugin (fileTree.js): the indexed
file-data tree, its path index, the localStorage state holder, the two data
providers and the controller's expand/collapse data flow.

JavaScript objects are mutable and aliased: the path index stores references
to the very node objects that hang off the root.  The embedding models object
identity with an `id : Nat` tag on every node; a mutation of one object
(`node.children = ...`) is modelled by rewriting every stored copy of the
node with that id, which coincides with the JS heap behaviour as long as ids
are used the way the program uses object allocation.
-/

namespace FileTree

/-- The `fileData` record of a tree node: `{path, name, type, expandable}`. -/
structure FileData where
  path : String
  name : String
  type : String
  expandable : Bool
deriving DecidableEq, Repr

/-- A tree node.  `node id fd cs` is `{fileData: fd, children: cs}`;
`empty id` is the EmptyMarker sentinel `{empty: true}`.  The `id` tags model
JS object identity and correspond to nothing in the serialized form. -/
inductive Node where
  | node (id : Nat) (fileData : FileData) (children : List Node)
  | empty (id : Nat)
deriving Repr

/-- `isEmptyNode` from the source: tests for the `{empty: true}` sentinel. -/
def isEmptyNode : Node → Bool
  | .node _ _ _ => false
  | .empty _ => true

/-- The object identity tag of a node. -/
def Node.nid : Node → Nat
  | .node i _ _ => i
  | .empty i => i

/-- The `fileData` of a non-empty node (an EmptyMarker has no `fileData`
property in the source; the default is never reached by any indexed node). -/
def Node.fdOf : Node → FileData
  | .node _ fd _ => fd
  | .empty _ => ⟨"", "", "", false⟩

/-- The path index `pathToNodeIndex`: a JS object used as a string-keyed map. -/
abbrev Index := List (String × Node)

/-- Assignment `obj[k] = v` on a JS object: replaces the binding in place if
the key exists, otherwise appends it. -/
def insertEntry : Index → String → Node → Index
  | [], k, v => [(k, v)]
  | e :: es, k, v => if e.1 = k then (k, v) :: es else e :: insertEntry es k v

/-- Lookup `obj[k]` on a JS object (keys are unique, so first match). -/
def lookupEntry : Index → String → Option Node
  | [], _ => none
  | e :: es, p => if e.1 = p then some e.2 else lookupEntry es p

/-- The key set of the index. -/
def keys (idx : Index) : List String := idx.map Prod.fst

mutual
/-- The recursive `index` helper of `IndexedFileDataTree`: skips EmptyMarkers,
stores the node under its path, and recurses into children of expandable
nodes. -/
def index : Node → Index → Index
  | .empty _, idx => idx
  | .node i fd cs, idx =>
      let idx1 := insertEntry idx fd.path (.node i fd cs)
      if fd.expandable then indexList cs idx1 else idx1

/-- `children.forEach(index)` over a list of nodes, left to right. -/
def indexList : List Node → Index → Index
  | [], idx => idx
  | c :: cs, idx => indexList cs (index c idx)
end

/-- `removeFromIndex` from the source.  Its guard reads `if (isEmptyNode)` —
the function object itself, not `isEmptyNode(node)` — and a function object
is always truthy in JS, so every call returns at once and the index is never
changed.  The remainder of the body is unreachable and is not modelled. -/
def removeFromIndex (_node : Node) (idx : Index) : Index := idx

mutual
/-- The effect of the JS assignment `obj.children = ns` on one stored tree
value, where `obj` is the (unique) object with identity tag `i`: every copy
of the object with that id gets the new children list. -/
def setChildrenById (i : Nat) (ns : List Node) : Node → Node
  | .empty j => .empty j
  | .node j fd cs => if j = i then .node j fd ns
                     else .node j fd (setChildrenByIdList i ns cs)

/-- `setChildrenById` mapped over a children list. -/
def setChildrenByIdList (i : Nat) (ns : List Node) : List Node → List Node
  | [] => []
  | c :: cs => setChildrenById i ns c :: setChildrenByIdList i ns cs
end

/-- The indexed file data tree produced by `getIndexedFileDataTree`: the
`root` node object and the closure variable `pathToNodeIndex`.  In JS the
index entries alias nodes of the root graph; the model keeps value copies and
applies every mutation to all copies via the id tags. -/
structure IndexedFileDataTree where
  root : Node
  pathToNodeIndex : Index
deriving Repr

/-- Applies the heap mutation `‹object i›.children = ns` to the whole state:
the root graph and every node value stored in the index. -/
def mutateState (i : Nat) (ns : List Node) (t : IndexedFileDataTree) :
    IndexedFileDataTree :=
  { root := setChildrenById i ns t.root
    pathToNodeIndex :=
      t.pathToNodeIndex.map fun e => (e.1, setChildrenById i ns e.2) }

/-- `getIndexedFileDataTree(root)`: wraps the root and runs `index(this.root)`
on the initially empty index. -/
def getIndexedFileDataTree (root : Node) : IndexedFileDataTree :=
  { root := root, pathToNodeIndex := index root [] }

/-- The `console.error` line emitted by `get` on a miss. -/
def missMsg (path : String) : String := "No node was found by path: " ++ path

/-- `IndexedFileDataTree.get`: looks the path up in `pathToNodeIndex`; on a
miss it logs an error and returns `null` (modelled as `none` plus the log
line), otherwise it returns the stored node and logs nothing. -/
def IndexedFileDataTree.get (t : IndexedFileDataTree) (path : String) :
    Option Node × List String :=
  match lookupEntry t.pathToNodeIndex path with
  | none => (none, [missMsg path])
  | some n => (some n, [])

/-- `IndexedFileDataTree.set(parentPath, nodes)`.  `this.get` may return
`null`, in which case the subsequent `node.fileData` access throws a
TypeError (modelled as `Except.error`); the same happens if the stored value
were an EmptyMarker, which has no `fileData`.  Otherwise the old children are
passed to `removeFromIndex` (which, due to the truthy-function guard, changes
nothing), the children list of the parent object is replaced — a heap
mutation visible through every alias — and the new nodes are indexed.
Returns the mutated parent node. -/
def IndexedFileDataTree.set (t : IndexedFileDataTree) (parentPath : String)
    (nodes : List Node) : Except Unit (Node × IndexedFileDataTree) :=
  match (t.get parentPath).1 with
  | none => .error ()
  | some (.empty _) => .error ()
  | some (.node i fd cs) =>
      let idx1 := if fd.expandable
        then cs.foldl (fun a c => removeFromIndex c a) t.pathToNodeIndex
        else t.pathToNodeIndex
      let t1 := mutateState i nodes { t with pathToNodeIndex := idx1 }
      let t2 := { t1 with pathToNodeIndex := indexList nodes t1.pathToNodeIndex }
      .ok (.node i fd nodes, t2)

/-- `IndexedFileDataTree.clear(parentPath)`: like `set` but installs an empty
children list and indexes nothing.  A missing (or EmptyMarker) parent makes
the `node.fileData` access throw, as in `set`. -/
def IndexedFileDataTree.clear (t : IndexedFileDataTree) (parentPath : String) :
    Except Unit IndexedFileDataTree :=
  match (t.get parentPath).1 with
  | none => .error ()
  | some (.empty _) => .error ()
  | some (.node i fd cs) =>
      let idx1 := if fd.expandable
        then cs.foldl (fun a c => removeFromIndex c a) t.pathToNodeIndex
        else t.pathToNodeIndex
      .ok (mutateState i [] { t with pathToNodeIndex := idx1 })

/-! Sorting of node lists. -/

/-- The inner `weight` function of `sortNodes`: directories weigh 2, other
expandable nodes 1, anything else 0.  The source would throw on an
EmptyMarker (`node.fileData` is `undefined` there); the comparator is only
ever applied to real nodes, and the model makes it total by giving the
marker weight 0. -/
def weight : Node → Int
  | .node _ fd _ => if fd.type = "directory" then 2 else if fd.expandable then 1 else 0
  | .empty _ => 0

/-- The `sortNodes` comparator: `weight(second) - weight(first)`, i.e. sort
by descending weight. -/
def sortNodes (first second : Node) : Int := weight second - weight first

/-- One insertion step of a stable comparator sort: `a` is placed before the
first element it does not have to follow (ties keep `a`, the earlier element,
in front). -/
def insertSorted (a : Node) : List Node → List Node
  | [] => [a]
  | b :: bs => if sortNodes a b ≤ 0 then a :: b :: bs else b :: insertSorted a bs

/-- `arr.sort(sortNodes)` — ECMAScript `Array.prototype.sort` is required to
be stable, so it is modelled by a stable insertion sort driven by the
`sortNodes` comparator. -/
def jsSortNodes : List Node → List Node
  | [] => []
  | a :: as => insertSorted a (jsSortNodes as)

/-! The static-document data provider. -/

/-- `JsonDataProvider`: after `load`, holds the indexed tree built from the
JSON document. -/
structure JsonDataProvider where
  tree : IndexedFileDataTree
deriving Repr

/-- `JsonDataProvider.list(path, callback)`: reads `this.tree.get(path)
.children` (a `null` result from `get`, or an EmptyMarker without a
`children` array, makes the access throw — `Except.error`), sorts that very
array in place — a heap mutation of the provider's internal tree, visible
through every alias — and passes the same array to the callback.  The result
pairs the delivered list with the provider state after the call. -/
def JsonDataProvider.list (prov : JsonDataProvider) (path : String) :
    Except Unit (List Node × JsonDataProvider) :=
  match (prov.tree.get path).1 with
  | none => .error ()
  | some (.empty _) => .error ()
  | some (.node i _ cs) =>
      let sorted := jsSortNodes cs
      .ok (sorted, ⟨mutateState i sorted prov.tree⟩)

/-! The remote-service data provider (its data mapping and sorting; the
transport itself is outside the model). -/

/-- The node construction loop of `mapToTreeNode`: each raw `FileData` record
becomes a childless node object (fresh objects, ids drawn sequentially from
`k`). -/
def mapToTreeNodeAux : List FileData → Nat → List Node
  | [], _ => []
  | fd :: rest, k => .node k fd [] :: mapToTreeNodeAux rest (k + 1)

/-- `mapToTreeNode(data, callback)`: wraps every record into a childless
node, sorts the list with `sortNodes` and hands it to the callback. -/
def mapToTreeNode (data : List FileData) (k : Nat) : List Node :=
  jsSortNodes (mapToTreeNodeAux data k)

/-! Controller pieces: `copyChildren` and the success branch of the expand
click handler. -/

/-- `copyChildren` from the `Core` controller: EmptyMarkers are pushed
through unchanged (the same object), every other node becomes a fresh object
(ids drawn sequentially from `k`) with a copy of its `fileData` and an empty
children list (`copy.children = []` when expandable; a non-expandable copy
has no `children` property at all, which the program never reads — modelled
as the empty list). -/
def copyChildren : List Node → Nat → List Node × Nat
  | [], k => ([], k)
  | .empty j :: cs, k =>
      let (rest, k') := copyChildren cs k
      (.empty j :: rest, k')
  | .node _ fd _ :: cs, k =>
      let (rest, k') := copyChildren cs (k + 1)
      (.node k fd [] :: rest, k')

/-- The success callback of `expandableNodeClickHandler`: when the provider
delivers an empty list, a fresh EmptyMarker object is pushed into it; the
(copied) children are then attached under `path` with `set`.  (`addNodes`
additionally persists; the tree mutation is what matters here.)  `k` is the
id supply for the fresh objects. -/
def handleListSuccess (t : IndexedFileDataTree) (path : String)
    (data : List Node) (k : Nat) : Except Unit (Node × IndexedFileDataTree) :=
  let d := if data.isEmpty then data ++ [Node.empty k] else data
  t.set path (copyChildren d (k + 1)).1

/-! Serialization.  `localStorage` stores `JSON.stringify(root)`; loading
parses it back.  The JSON values involved are modelled by a small AST; a
stored string that is not valid JSON behaves exactly like a parsed value of
the wrong shape — `JSON.parse` respectively the subsequent field accesses
throw — so corruption is modelled at the AST level. -/

/-- JSON values (the fragment the persisted trees use). -/
inductive Json where
  | null
  | bool (b : Bool)
  | str (s : String)
  | arr (elems : List Json)
  | obj (fields : List (String × Json))
deriving Repr

/-- Field access `obj["k"]` on a parsed JSON object. -/
def getField : List (String × Json) → String → Option Json
  | [], _ => none
  | f :: fs, k => if f.1 = k then some f.2 else getField fs k

/-- `JSON.stringify` of a `fileData` record. -/
def encodeFileData (fd : FileData) : Json :=
  .obj [("path", .str fd.path), ("name", .str fd.name),
        ("type", .str fd.type), ("expandable", .bool fd.expandable)]

mutual
/-- `JSON.stringify` of a node graph: an EmptyMarker serializes as
`{empty: true}`, a real node as `{fileData: ..., children: [...]}`.  (A
non-expandable copy produced by `copyChildren` has no `children` property in
JS and stringifies without it; the model's empty children list serializes to
`[]`, which loads back to the same state the program observes.)  Identity
tags are a model artifact and are not serialized. -/
def encodeNode : Node → Json
  | .empty _ => .obj [("empty", .bool true)]
  | .node _ fd cs => .obj [("fileData", encodeFileData fd),
                           ("children", .arr (encodeNodeList cs))]

/-- `encodeNode` over a children array. -/
def encodeNodeList : List Node → List Json
  | [] => []
  | c :: cs => encodeNode c :: encodeNodeList cs
end

/-- Reading a `fileData` record out of parsed JSON.  A miss or a wrong type
makes the loaded tree crash as soon as the program touches the field, so
decoding fails exactly where the loaded state is unusable. -/
def decodeFileData : Json → Option FileData
  | .obj fields =>
      match getField fields ("path"), getField fields ("name"),
            getField fields ("type"), getField fields ("expandable") with
      | some (.str p), some (.str n), some (.str ty), some (.bool e) =>
          some ⟨p, n, ty, e⟩
      | _, _, _, _ => none
  | _ => none

mutual
/-- Rebuilding a node graph from parsed JSON, drawing fresh object ids from
`k`.  `{empty: true}` loads as an EmptyMarker; a node object loads from its
`fileData` and `children` members; a node without a `children` member (the
stringified form of a non-expandable copy) loads with the empty list.  The
persisted blob is always a `JSON.stringify` output, whose member order is
the object construction order matched here; any other value makes the
indexing traversal of the loaded state throw in JS and decodes to `none`. -/
def decodeNode : Json → Nat → Option (Node × Nat)
  | .obj [("empty", .bool true)], k => some (.empty k, k + 1)
  | .obj [("fileData", jfd), ("children", .arr js)], k =>
      match decodeFileData jfd with
      | none => none
      | some fd =>
        match decodeNodeList js (k + 1) with
        | some (cs, k') => some (.node k fd cs, k')
        | none => none
  | .obj [("fileData", jfd)], k =>
      match decodeFileData jfd with
      | none => none
      | some fd => some (.node k fd [], k + 1)
  | _, _ => none

/-- `decodeNode` over a JSON array of children. -/
def decodeNodeList : List Json → Nat → Option (List Node × Nat)
  | [], k => some ([], k)
  | j :: js, k =>
      match decodeNode j k with
      | none => none
      | some (c, k1) =>
        match decodeNodeList js k1 with
        | none => none
        | some (cs, k') => some (c :: cs, k')
end

mutual
/-- Deterministic re-tagging of a node graph with fresh ids drawn from `k`,
in the order `decodeNode` assigns them.  Loading a serialized graph yields
exactly the re-tagged graph. -/
def retagNode : Node → Nat → Node × Nat
  | .empty _, k => (.empty k, k + 1)
  | .node _ fd cs, k =>
      let (cs', k') := retagNodeList cs (k + 1)
      (.node k fd cs', k')

/-- `retagNode` over a children list. -/
def retagNodeList : List Node → Nat → List Node × Nat
  | [], k => ([], k)
  | c :: cs, k =>
      let (c', k1) := retagNode c k
      let (cs', k') := retagNodeList cs k1
      (c' :: cs', k')
end

mutual
/-- Structural equality of node graphs: same shape, same `fileData`
everywhere, object identity (ids) ignored. -/
def structEq : Node → Node → Bool
  | .empty _, .empty _ => true
  | .node _ fd cs, .node _ fd' cs' => fd == fd' && structEqList cs cs'
  | _, _ => false

/-- `structEq` over children lists, position by position. -/
def structEqList : List Node → List Node → Bool
  | [], [] => true
  | c :: cs, d :: ds => structEq c d && structEqList cs ds
  | _, _ => false
end

/-! The localStorage state holder. -/

/-- The default root created by `initState`: a directory node with empty
path, empty name and no children. -/
def freshRootNode : Node := .node 0 ⟨"", "", "directory", true⟩ []

/-- The state holder: the indexed tree plus the content persisted under the
holder's storage key (`none` models an absent item). -/
structure LocalStorageStateHolder where
  tree : IndexedFileDataTree
  storage : Option Json
deriving Repr

/-- Holder initialization.  `localStorage.getItem` returning `null` triggers
`initState`: the fresh default root is persisted and indexed.  A present
value is parsed and indexed — there is no recovery path: a stored value that
does not describe a node graph makes `JSON.parse` or the indexing traversal
throw (`Except.error`). -/
def initLocalStorageStateHolder (stored : Option Json) :
    Except Unit LocalStorageStateHolder :=
  match stored with
  | none => .ok ⟨getIndexedFileDataTree freshRootNode, some (encodeNode freshRootNode)⟩
  | some j =>
      match decodeNode j 0 with
      | some (r, _) => .ok ⟨getIndexedFileDataTree r, some j⟩
      | none => .error ()

/-- `saveState`: full-snapshot overwrite of the persisted blob with the
serialized current root. -/
def LocalStorageStateHolder.saveState (h : LocalStorageStateHolder) :
    LocalStorageStateHolder :=
  { h with storage := some (encodeNode h.tree.root) }

/-- `addNodes(path, children)`: delegate to `set`, persist, return the
updated node.  An exception in `set` propagates before anything is
persisted. -/
def LocalStorageStateHolder.addNodes (h : LocalStorageStateHolder)
    (path : String) (children : List Node) :
    Except Unit (Node × LocalStorageStateHolder) :=
  match h.tree.set path children with
  | .error e => .error e
  | .ok (n, t) => .ok (n, LocalStorageStateHolder.saveState { h with tree := t })

/-- `clearNode(path)`: delegate to `clear`, persist. -/
def LocalStorageStateHolder.clearNode (h : LocalStorageStateHolder)
    (path : String) : Except Unit LocalStorageStateHolder :=
  match h.tree.clear path with
  | .error e => .error e
  | .ok t => .ok (LocalStorageStateHolder.saveState { h with tree := t })

/-- `getCurrentState()`: the current root. -/
def LocalStorageStateHolder.getCurrentState (h : LocalStorageStateHolder) :
    Node := h.tree.root

/-! Spec-side notions used to state the claims. -/

mutual
/-- Modelled from the spec: the paths of all non-EmptyMarker nodes reachable
from a node through `children` edges ("the set of non-EmptyMarker nodes
reachable from the root"). -/
def reachableNonEmptyPaths : Node → List String
  | .empty _ => []
  | .node _ fd cs => fd.path :: reachableNonEmptyPathsList cs

/-- `reachableNonEmptyPaths` over a children list. -/
def reachableNonEmptyPathsList : List Node → List String
  | [] => []
  | c :: cs => reachableNonEmptyPaths c ++ reachableNonEmptyPathsList cs
end

/-- The `FileData` the index associates to a path (the claims compare
indexes by path set and per-path FileData equality). -/
def fdLookup (idx : Index) (p : String) : Option FileData :=
  (lookupEntry idx p).map Node.fdOf

/-- No EmptyMarker is stored as an index value. -/
def noEmptyValues (idx : Index) : Prop :=
  ∀ e ∈ idx, isEmptyNode e.2 = false

/-- A node list free of EmptyMarkers (the comparator model is only faithful
on such lists, since `weight` of a marker would throw in the source). -/
def noEmptyNode (ns : List Node) : Prop :=
  ∀ n ∈ ns, isEmptyNode n = false

/-! Proof infrastructure: the indexing traversal as a flat entry list. -/

/-- Folding a list of bindings into the index, left to right (later bindings
overwrite earlier ones, as consecutive `obj[k] = v` assignments do). -/
def insertAllEntries (es : List (String × Node)) (idx : Index) : Index :=
  es.foldl (fun a e => insertEntry a e.1 e.2) idx

mutual
/-- The bindings the `index` traversal writes for one node, in write order:
the node itself under its path, then (for expandable nodes) the bindings of
its children. -/
def nodeEntries : Node → List (String × Node)
  | .empty _ => []
  | .node i fd cs =>
      (fd.path, .node i fd cs) :: (if fd.expandable then nodeEntriesList cs else [])

/-- `nodeEntries` over a children list. -/
def nodeEntriesList : List Node → List (String × Node)
  | [] => []
  | c :: cs => nodeEntries c ++ nodeEntriesList cs
end

/-- The last binding for a key in an entry list (the one that survives after
all inserts). -/
def lastVal : List (String × Node) → String → Option Node
  | [], _ => none
  | e :: es, p =>
      match lastVal es p with
      | some v => some v
      | none => if p = e.1 then some e.2 else none

/-- `lastVal` at the `FileData` level. -/
def lastFd : List (String × FileData) → String → Option FileData
  | [], _ => none
  | e :: es, p =>
      match lastFd es p with
      | some v => some v
      | none => if p = e.1 then some e.2 else none

/-- Projection of an entry list to the data the claims compare: each
binding's path and top-level `FileData`. -/
def entriesFd (es : List (String × Node)) : List (String × FileData) :=
  es.map fun e => (e.1, e.2.fdOf)

/-! Concrete fixtures used by the closed evaluations and witnesses. -/

/-- The root `fileData` (as `initState` builds it). -/
def rootFd : FileData := ⟨"", "", "directory", true⟩

/-- A plain-file child at path `/a`. -/
def aFd : FileData := ⟨"/a", "a", "text/plain", false⟩

/-- The child node object. -/
def aNode : Node := .node 1 aFd []

/-- A root directory with the single child `/a`. -/
def root0 : Node := .node 0 rootFd [aNode]

/-- The indexed tree over `root0`. -/
def t0 : IndexedFileDataTree := getIndexedFileDataTree root0

/-- The state after `t0.clear ("")`: the root object has lost its children,
but the index still carries the stale binding for `/a` because
`removeFromIndex` never deletes anything. -/
def t0c : IndexedFileDataTree :=
  ⟨.node 0 rootFd [], [("", .node 0 rootFd []), ("/a", aNode)]⟩

/-- A state holder over `t0` with `root0` persisted. -/
def h0 : LocalStorageStateHolder := ⟨t0, some (encodeNode root0)⟩

/-- The holder after `h0.clearNode ("")`. -/
def h1 : LocalStorageStateHolder := ⟨t0c, some (encodeNode t0c.root)⟩

/-- The holder state reloaded from `h1`'s persisted blob. -/
def h2 : LocalStorageStateHolder :=
  ⟨getIndexedFileDataTree (.node 0 rootFd []), some (encodeNode t0c.root)⟩

/-- A plain text file node (the sorting example). -/
def fileNode : Node := .node 11 ⟨"/f", "f", "text/plain", false⟩ []

/-- A directory node (the sorting example). -/
def dirNode : Node := .node 12 ⟨"/d", "d", "directory", true⟩ []

/-- An expandable zip archive node (the sorting example). -/
def zipNode : Node := .node 13 ⟨"/z", "z", "application/zip", true⟩ []

/-- A static-document provider whose loaded tree is `t0`. -/
def jsonProv0 : JsonDataProvider := ⟨t0⟩

/-! Lemmas about the index primitives. -/

theorem foldl_removeFromIndex (cs : List Node) (idx : Index) :
    cs.foldl (fun a c => removeFromIndex c a) idx = idx := by
  induction cs generalizing idx with
  | nil => rfl
  | cons c cs ih => rw [List.foldl_cons]; exact ih idx

theorem lookup_insertEntry (idx : Index) (k : String) (v : Node) (p : String) :
    lookupEntry (insertEntry idx k v) p
      = if p = k then some v else lookupEntry idx p := by
  induction idx with
  | nil =>
      by_cases h : p = k
      · subst h; simp [insertEntry, lookupEntry]
      · have h' : ¬ k = p := fun hh => h hh.symm
        simp [insertEntry, lookupEntry, h, h']
  | cons e es ih =>
      by_cases hek : e.1 = k
      · simp only [insertEntry, if_pos hek]
        by_cases hpk : p = k
        · subst hpk; simp [lookupEntry]
        · have h' : ¬ k = p := fun hh => hpk hh.symm
          have he' : ¬ e.1 = p := fun hh => h' (hek.symm.trans hh)
          simp [lookupEntry, h', hpk, he']
      · simp only [insertEntry, if_neg hek]
        by_cases hpe : e.1 = p
        · have hpk : ¬ p = k := fun h => hek (by rw [hpe, h])
          simp [lookupEntry, hpe, hpk]
        · simp [lookupEntry, hpe, ih]

theorem insertAllEntries_nil (idx : Index) : insertAllEntries [] idx = idx := rfl

theorem insertAllEntries_cons (e : String × Node) (es : List (String × Node))
    (idx : Index) :
    insertAllEntries (e :: es) idx
      = insertAllEntries es (insertEntry idx e.1 e.2) := rfl

theorem insertAllEntries_append (es fs : List (String × Node)) (idx : Index) :
    insertAllEntries (es ++ fs) idx = insertAllEntries fs (insertAllEntries es idx) := by
  simp [insertAllEntries, List.foldl_append]

mutual
theorem index_eq_insertAll (n : Node) : ∀ idx : Index,
    index n idx = insertAllEntries (nodeEntries n) idx := by
  cases n with
  | empty j => intro idx; rfl
  | node i fd cs =>
      intro idx
      by_cases h : fd.expandable
      · calc index (.node i fd cs) idx
            = indexList cs (insertEntry idx fd.path (.node i fd cs)) := by
              simp [index, h]
          _ = insertAllEntries (nodeEntriesList cs)
                (insertEntry idx fd.path (.node i fd cs)) :=
              indexList_eq_insertAll cs _
          _ = insertAllEntries (nodeEntries (.node i fd cs)) idx := by
              simp [nodeEntries, h, insertAllEntries_cons]
      · simp [index, nodeEntries, h, insertAllEntries_cons, insertAllEntries_nil]

theorem indexList_eq_insertAll (ns : List Node) : ∀ idx : Index,
    indexList ns idx = insertAllEntries (nodeEntriesList ns) idx := by
  cases ns with
  | nil => intro idx; rfl
  | cons c cs =>
      intro idx
      calc indexList (c :: cs) idx
          = indexList cs (index c idx) := rfl
        _ = insertAllEntries (nodeEntriesList cs) (index c idx) :=
            indexList_eq_insertAll cs _
        _ = insertAllEntries (nodeEntriesList cs)
              (insertAllEntries (nodeEntries c) idx) := by
            rw [index_eq_insertAll c idx]
        _ = insertAllEntries (nodeEntries c ++ nodeEntriesList cs) idx := by
            rw [insertAllEntries_append]
        _ = insertAllEntries (nodeEntriesList (c :: cs)) idx := rfl
end

theorem lookup_insertAllEntries (es : List (String × Node)) (idx : Index)
    (p : String) :
    lookupEntry (insertAllEntries es idx) p
      = (lastVal es p).or (lookupEntry idx p) := by
  induction es generalizing idx with
  | nil => simp [insertAllEntries_nil, lastVal, Option.or]
  | cons e es ih =>
      rw [insertAllEntries_cons, ih, lookup_insertEntry]
      cases hl : lastVal es p with
      | some v => simp [lastVal, hl, Option.or]
      | none =>
          by_cases hpe : p = e.1
          · subst hpe; simp [lastVal, hl, Option.or]
          · simp [lastVal, hl, hpe, Option.or]

theorem entriesFd_cons (e : String × Node) (es : List (String × Node)) :
    entriesFd (e :: es) = (e.1, e.2.fdOf) :: entriesFd es := rfl

theorem lastVal_map_fdOf (es : List (String × Node)) (p : String) :
    (lastVal es p).map Node.fdOf = lastFd (entriesFd es) p := by
  induction es with
  | nil => rfl
  | cons e es ih =>
      rw [entriesFd_cons]
      cases hl : lastVal es p with
      | some v =>
          have h2 : lastFd (entriesFd es) p = some v.fdOf := by
            rw [← ih, hl]; rfl
          simp only [lastVal, lastFd, hl, h2]
          rfl
      | none =>
          have h2 : lastFd (entriesFd es) p = none := by
            rw [← ih, hl]; rfl
          simp only [lastVal, lastFd, hl, h2]
          by_cases hpe : p = e.1
          · simp [hpe]
          · simp [hpe]

theorem fdLookup_insertAllEntries (es : List (String × Node)) (idx : Index)
    (p : String) :
    fdLookup (insertAllEntries es idx) p
      = (lastFd (entriesFd es) p).or (fdLookup idx p) := by
  simp only [fdLookup]
  rw [lookup_insertAllEntries, ← lastVal_map_fdOf]
  cases lastVal es p <;> simp [Option.or]

theorem lookup_map_snd (idx : Index) (f : Node → Node) (p : String) :
    lookupEntry (idx.map fun e => (e.1, f e.2)) p
      = (lookupEntry idx p).map f := by
  induction idx with
  | nil => rfl
  | cons e es ih => by_cases hpe : e.1 = p <;> simp [lookupEntry, hpe, ih]

theorem fdOf_setChildrenById (i : Nat) (ns : List Node) (m : Node) :
    (setChildrenById i ns m).fdOf = m.fdOf := by
  cases m with
  | empty j => rfl
  | node j fd cs => simp only [setChildrenById]; split <;> rfl

theorem isEmptyNode_setChildrenById (i : Nat) (ns : List Node) (m : Node) :
    isEmptyNode (setChildrenById i ns m) = isEmptyNode m := by
  cases m with
  | empty j => rfl
  | node j fd cs => simp only [setChildrenById]; split <;> rfl

theorem fdLookup_mutate (idx : Index) (i : Nat) (ns : List Node) (p : String) :
    fdLookup (idx.map fun e => (e.1, setChildrenById i ns e.2)) p
      = fdLookup idx p := by
  simp only [fdLookup]
  rw [lookup_map_snd]
  cases hl : lookupEntry idx p <;> simp [hl, fdOf_setChildrenById]

theorem entriesFd_append (es fs : List (String × Node)) :
    entriesFd (es ++ fs) = entriesFd es ++ entriesFd fs := by
  simp [entriesFd]

mutual
theorem structEq_entriesFd (n n' : Node) : structEq n n' = true →
    entriesFd (nodeEntries n) = entriesFd (nodeEntries n') := by
  cases n with
  | empty j =>
      cases n' with
      | empty j' => intro _; rfl
      | node i' fd' cs' => intro h; simp [structEq] at h
  | node i fd cs =>
      cases n' with
      | empty j' => intro h; simp [structEq] at h
      | node i' fd' cs' =>
          intro h
          simp only [structEq, Bool.and_eq_true, beq_iff_eq] at h
          obtain ⟨hfd, hcs⟩ := h
          subst hfd
          have hl := structEqList_entriesFd cs cs' hcs
          by_cases he : fd.expandable
          · simp only [nodeEntries, he, if_true, entriesFd_cons]
            rw [hl]
            simp [Node.fdOf]
          · simp only [nodeEntries, he, if_false, entriesFd_cons, Bool.false_eq_true]
            simp [Node.fdOf]

theorem structEqList_entriesFd (ns ns' : List Node) : structEqList ns ns' = true →
    entriesFd (nodeEntriesList ns) = entriesFd (nodeEntriesList ns') := by
  cases ns with
  | nil =>
      cases ns' with
      | nil => intro _; rfl
      | cons d ds => intro h; simp [structEqList] at h
  | cons c cs =>
      cases ns' with
      | nil => intro h; simp [structEqList] at h
      | cons d ds =>
          intro h
          simp only [structEqList, Bool.and_eq_true] at h
          obtain ⟨h1, h2⟩ := h
          simp only [nodeEntriesList, entriesFd_append]
          rw [structEq_entriesFd c d h1, structEqList_entriesFd cs ds h2]
end

theorem lookup_isSome_iff_mem_keys (idx : Index) (p : String) :
    (lookupEntry idx p).isSome ↔ p ∈ keys idx := by
  induction idx with
  | nil => simp [lookupEntry, keys]
  | cons e es ih =>
      by_cases hpe : e.1 = p
      · simp [lookupEntry, keys, hpe]
      · have h' : ¬ p = e.1 := fun h => hpe h.symm
        simp [lookupEntry, keys, hpe, h', ih]

theorem mem_insertEntry (idx : Index) (k : String) (v : Node)
    (e : String × Node) :
    e ∈ insertEntry idx k v → e = (k, v) ∨ e ∈ idx := by
  induction idx with
  | nil => intro h; simp [insertEntry] at h; left; exact h
  | cons f fs ih =>
      intro h
      by_cases hfk : f.1 = k
      · simp only [insertEntry, if_pos hfk, List.mem_cons] at h
        rcases h with h | h
        · left; exact h
        · right; exact List.mem_cons_of_mem _ h
      · simp only [insertEntry, if_neg hfk, List.mem_cons] at h
        rcases h with h | h
        · right; exact h ▸ List.mem_cons_self _ _
        · rcases ih h with h' | h'
          · left; exact h'
          · right; exact List.mem_cons_of_mem _ h'

theorem noEmptyValues_insertAll (es : List (String × Node)) : ∀ idx : Index,
    (∀ e ∈ es, isEmptyNode e.2 = false) → noEmptyValues idx →
    noEmptyValues (insertAllEntries es idx) := by
  induction es with
  | nil => intro idx _ hidx; exact hidx
  | cons e es ih =>
      intro idx hes hidx
      rw [insertAllEntries_cons]
      refine ih _ (fun f hf => hes f (List.mem_cons_of_mem _ hf)) ?_
      intro f hf
      rcases mem_insertEntry _ _ _ _ hf with h | h
      · rw [h]; exact hes e (List.mem_cons_self _ _)
      · exact hidx f h

mutual
theorem nodeEntries_values_nonEmpty (n : Node) :
    ∀ e ∈ nodeEntries n, isEmptyNode e.2 = false := by
  cases n with
  | empty j => intro e he; simp [nodeEntries] at he
  | node i fd cs =>
      intro e he
      simp only [nodeEntries, List.mem_cons] at he
      rcases he with he | he
      · rw [he]; rfl
      · by_cases hex : fd.expandable
        · rw [if_pos hex] at he
          exact nodeEntriesList_values_nonEmpty cs e he
        · rw [if_neg hex] at he
          simp at he

theorem nodeEntriesList_values_nonEmpty (ns : List Node) :
    ∀ e ∈ nodeEntriesList ns, isEmptyNode e.2 = false := by
  cases ns with
  | nil => intro e he; simp [nodeEntriesList] at he
  | cons c cs =>
      intro e he
      simp only [nodeEntriesList, List.mem_append] at he
      rcases he with he | he
      · exact nodeEntries_values_nonEmpty c e he
      · exact nodeEntriesList_values_nonEmpty cs e he
end

theorem noEmptyValues_index (n : Node) (idx : Index) (h : noEmptyValues idx) :
    noEmptyValues (index n idx) := by
  rw [index_eq_insertAll]
  exact noEmptyValues_insertAll _ _ (nodeEntries_values_nonEmpty n) h

theorem noEmptyValues_indexList (ns : List Node) (idx : Index)
    (h : noEmptyValues idx) : noEmptyValues (indexList ns idx) := by
  rw [indexList_eq_insertAll]
  exact noEmptyValues_insertAll _ _ (nodeEntriesList_values_nonEmpty ns) h

theorem lastVal_mem (es : List (String × Node)) (p : String) (v : Node) :
    lastVal es p = some v → (p, v) ∈ es := by
  induction es with
  | nil => intro h; simp [lastVal] at h
  | cons e es ih =>
      intro h
      simp only [lastVal] at h
      cases hl : lastVal es p with
      | some w =>
          rw [hl] at h
          cases h
          exact List.mem_cons_of_mem _ (ih hl)
      | none =>
          rw [hl] at h
          by_cases hpe : p = e.1
          · rw [if_pos hpe] at h
            cases h
            rw [hpe]
            exact List.mem_cons_self _ _
          · rw [if_neg hpe] at h; cases h

mutual
theorem setChildrenById_idem (i : Nat) (ns : List Node) (m : Node) :
    setChildrenById i ns (setChildrenById i ns m) = setChildrenById i ns m := by
  cases m with
  | empty j => rfl
  | node j fd cs =>
      by_cases hj : j = i
      · simp [setChildrenById, hj]
      · simp [setChildrenById, hj, setChildrenByIdList_idem i ns cs]

theorem setChildrenByIdList_idem (i : Nat) (ns : List Node) (ms : List Node) :
    setChildrenByIdList i ns (setChildrenByIdList i ns ms)
      = setChildrenByIdList i ns ms := by
  cases ms with
  | nil => rfl
  | cons c cs =>
      simp [setChildrenByIdList, setChildrenById_idem i ns c,
            setChildrenByIdList_idem i ns cs]
end

theorem mutateState_idem (i : Nat) (ns : List Node) (t : IndexedFileDataTree) :
    mutateState i ns (mutateState i ns t) = mutateState i ns t := by
  simp only [mutateState, List.map_map, IndexedFileDataTree.mk.injEq]
  constructor
  · exact setChildrenById_idem i ns t.root
  · refine List.map_congr_left ?_
    intro e _
    simp [Function.comp, setChildrenById_idem]

theorem weight_le_two (n : Node) : weight n ≤ 2 := by
  cases n with
  | empty j => simp [weight]
  | node j fd cs =>
      simp only [weight]
      by_cases h1 : fd.type = "directory"
      · simp [h1]
      · by_cases h2 : fd.expandable <;> simp [h1, h2]

theorem weight_nonneg (n : Node) : 0 ≤ weight n := by
  cases n with
  | empty j => simp [weight]
  | node j fd cs =>
      simp only [weight]
      by_cases h1 : fd.type = "directory"
      · simp [h1]
      · by_cases h2 : fd.expandable <;> simp [h1, h2]

theorem weight_cases (n : Node) : weight n = 2 ∨ weight n = 1 ∨ weight n = 0 := by
  cases n with
  | empty j => right; right; rfl
  | node j fd cs =>
      simp only [weight]
      by_cases h1 : fd.type = "directory"
      · left; simp [h1]
      · by_cases h2 : fd.expandable
        · right; left; simp [h1, h2]
        · right; right; simp [h1, h2]

theorem insertSorted_front (a : Node) (l : List Node)
    (h : ∀ b ∈ l, weight b ≤ weight a) : insertSorted a l = a :: l := by
  cases l with
  | nil => rfl
  | cons b bs =>
      have hab : sortNodes a b ≤ 0 :=
        sub_nonpos.mpr (h b (List.mem_cons_self _ _))
      simp [insertSorted, hab]

theorem insertSorted_skip (a : Node) (pre : List Node) : ∀ rest : List Node,
    (∀ b ∈ pre, weight a < weight b) →
    insertSorted a (pre ++ rest) = pre ++ insertSorted a rest := by
  induction pre with
  | nil => intro rest _; rfl
  | cons b pre ih =>
      intro rest h
      have hab : ¬ sortNodes a b ≤ 0 :=
        not_le.mpr (sub_pos.mpr (h b (List.mem_cons_self _ _)))
      simp only [List.cons_append, insertSorted, if_neg hab, List.append_eq]
      rw [ih rest (fun c hc => h c (List.mem_cons_of_mem _ hc))]

theorem mem_filter_weight (w : Int) (l : List Node) (b : Node)
    (hb : b ∈ l.filter (fun n => weight n == w)) : weight b = w := by
  rw [List.mem_filter] at hb
  exact beq_iff_eq.mp hb.2

theorem jsSortNodes_decomp (ns : List Node) :
    jsSortNodes ns
      = ns.filter (fun n => weight n == 2)
        ++ ns.filter (fun n => weight n == 1)
        ++ ns.filter (fun n => weight n == 0) := by
  induction ns with
  | nil => rfl
  | cons x r ih =>
      have hstep : jsSortNodes (x :: r) = insertSorted x (jsSortNodes r) := rfl
      rw [hstep, ih]
      rcases weight_cases x with hw | hw | hw
      · have hfront : ∀ b ∈ r.filter (fun n => weight n == 2)
            ++ r.filter (fun n => weight n == 1)
            ++ r.filter (fun n => weight n == 0), weight b ≤ weight x := by
          intro b _; rw [hw]; exact weight_le_two b
        rw [insertSorted_front x _ hfront]
        simp [List.filter_cons, hw]
      · have hskip : ∀ b ∈ r.filter (fun n => weight n == 2),
            weight x < weight b := by
          intro b hb; rw [hw, mem_filter_weight 2 r b hb]; norm_num
        have hfront : ∀ b ∈ r.filter (fun n => weight n == 1)
            ++ r.filter (fun n => weight n == 0), weight b ≤ weight x := by
          intro b hb
          rw [hw]
          rcases List.mem_append.mp hb with hb | hb
          · rw [mem_filter_weight 1 r b hb]
          · rw [mem_filter_weight 0 r b hb]; norm_num
        rw [List.append_assoc, insertSorted_skip x _ _ hskip,
            insertSorted_front x _ hfront]
        simp [List.filter_cons, hw]
      · have hskip : ∀ b ∈ r.filter (fun n => weight n == 2)
            ++ r.filter (fun n => weight n == 1), weight x < weight b := by
          intro b hb
          rw [hw]
          rcases List.mem_append.mp hb with hb | hb
          · rw [mem_filter_weight 2 r b hb]; norm_num
          · rw [mem_filter_weight 1 r b hb]; norm_num
        have hfront : ∀ b ∈ r.filter (fun n => weight n == 0),
            weight b ≤ weight x := by
          intro b hb; rw [hw, mem_filter_weight 0 r b hb]
        rw [insertSorted_skip x _ _ hskip, insertSorted_front x _ hfront]
        simp [List.filter_cons, hw]

theorem filter_weight_self (w : Int) (l : List Node)
    (h : ∀ b ∈ l, weight b = w) : l.filter (fun n => weight n == w) = l := by
  induction l with
  | nil => rfl
  | cons b bs ih =>
      have hb : weight b = w := h b (List.mem_cons_self _ _)
      simp [List.filter_cons, hb, ih (fun c hc => h c (List.mem_cons_of_mem _ hc))]

theorem filter_weight_nil (w w' : Int) (hne : w ≠ w') (l : List Node)
    (h : ∀ b ∈ l, weight b = w) : l.filter (fun n => weight n == w') = [] := by
  induction l with
  | nil => rfl
  | cons b bs ih =>
      have hb : weight b = w := h b (List.mem_cons_self _ _)
      have hbne : ¬ (weight b == w') = true := by
        rw [hb]; simp [hne]
      simp [List.filter_cons, hbne,
            ih (fun c hc => h c (List.mem_cons_of_mem _ hc))]

theorem jsSortNodes_idem (ns : List Node) :
    jsSortNodes (jsSortNodes ns) = jsSortNodes ns := by
  rw [jsSortNodes_decomp ns, jsSortNodes_decomp]
  have h2 : ∀ b ∈ ns.filter (fun n => weight n == 2), weight b = 2 :=
    fun b hb => mem_filter_weight 2 ns b hb
  have h1 : ∀ b ∈ ns.filter (fun n => weight n == 1), weight b = 1 :=
    fun b hb => mem_filter_weight 1 ns b hb
  have h0 : ∀ b ∈ ns.filter (fun n => weight n == 0), weight b = 0 :=
    fun b hb => mem_filter_weight 0 ns b hb
  simp only [List.filter_append]
  rw [filter_weight_self 2 _ h2, filter_weight_nil 1 2 (by norm_num) _ h1,
      filter_weight_nil 0 2 (by norm_num) _ h0,
      filter_weight_nil 2 1 (by norm_num) _ h2, filter_weight_self 1 _ h1,
      filter_weight_nil 0 1 (by norm_num) _ h0,
      filter_weight_nil 2 0 (by norm_num) _ h2,
      filter_weight_nil 1 0 (by norm_num) _ h1, filter_weight_self 0 _ h0]
  simp

theorem mem_keys_iff_fdLookup_isSome (idx : Index) (p : String) :
    p ∈ keys idx ↔ (fdLookup idx p).isSome := by
  rw [← lookup_isSome_iff_mem_keys]
  cases hl : lookupEntry idx p <;> simp [fdLookup, hl]

theorem set_eq_of_lookup (t : IndexedFileDataTree) (p : String) (i : Nat)
    (fd : FileData) (cs ns : List Node)
    (hp : lookupEntry t.pathToNodeIndex p = some (.node i fd cs)) :
    t.set p ns = .ok (.node i fd ns,
      ⟨setChildrenById i ns t.root,
       indexList ns
         (t.pathToNodeIndex.map fun e => (e.1, setChildrenById i ns e.2))⟩) := by
  simp only [IndexedFileDataTree.set, IndexedFileDataTree.get, hp]
  by_cases he : fd.expandable
  · simp [he, foldl_removeFromIndex, mutateState]
  · simp [he, mutateState]

theorem clear_eq_of_lookup (t : IndexedFileDataTree) (p : String) (i : Nat)
    (fd : FileData) (cs : List Node)
    (hp : lookupEntry t.pathToNodeIndex p = some (.node i fd cs)) :
    t.clear p = .ok
      ⟨setChildrenById i [] t.root,
       t.pathToNodeIndex.map fun e => (e.1, setChildrenById i [] e.2)⟩ := by
  simp only [IndexedFileDataTree.clear, IndexedFileDataTree.get, hp]
  by_cases he : fd.expandable
  · simp [he, foldl_removeFromIndex, mutateState]
  · simp [he, mutateState]

theorem set_error_of_lookup_none (t : IndexedFileDataTree) (p : String)
    (ns : List Node) (hp : lookupEntry t.pathToNodeIndex p = none) :
    t.set p ns = .error () := by
  simp [IndexedFileDataTree.set, IndexedFileDataTree.get, hp]

theorem clear_error_of_lookup_none (t : IndexedFileDataTree) (p : String)
    (hp : lookupEntry t.pathToNodeIndex p = none) :
    t.clear p = .error () := by
  simp [IndexedFileDataTree.clear, IndexedFileDataTree.get, hp]

theorem lookup_indexList (ns : List Node) (idx : Index) (p : String) :
    lookupEntry (indexList ns idx) p
      = (lastVal (nodeEntriesList ns) p).or (lookupEntry idx p) := by
  rw [indexList_eq_insertAll, lookup_insertAllEntries]

theorem fdLookup_indexList (ns : List Node) (idx : Index) (p : String) :
    fdLookup (indexList ns idx) p
      = (lastFd (entriesFd (nodeEntriesList ns)) p).or (fdLookup idx p) := by
  rw [indexList_eq_insertAll, fdLookup_insertAllEntries]

theorem weight_eq_two_iff (n : Node) (hn : isEmptyNode n = false) :
    (weight n == 2) = (n.fdOf.type == "directory") := by
  cases n with
  | empty j => simp [isEmptyNode] at hn
  | node j fd cs =>
      simp only [weight, Node.fdOf]
      by_cases h1 : fd.type = "directory"
      · simp [h1]
      · by_cases h2 : fd.expandable <;> simp [h1, h2]

theorem weight_eq_one_iff (n : Node) (hn : isEmptyNode n = false) :
    (weight n == 1) = (!(n.fdOf.type == "directory") && n.fdOf.expandable) := by
  cases n with
  | empty j => simp [isEmptyNode] at hn
  | node j fd cs =>
      simp only [weight, Node.fdOf]
      by_cases h1 : fd.type = "directory"
      · simp [h1]
      · by_cases h2 : fd.expandable <;> simp [h1, h2]

theorem weight_eq_zero_iff (n : Node) (hn : isEmptyNode n = false) :
    (weight n == 0) = (!(n.fdOf.type == "directory") && !n.fdOf.expandable) := by
  cases n with
  | empty j => simp [isEmptyNode] at hn
  | node j fd cs =>
      simp only [weight, Node.fdOf]
      by_cases h1 : fd.type = "directory"
      · simp [h1]
      · by_cases h2 : fd.expandable <;> simp [h1, h2]

theorem fdLookup_double_set (tIdx : Index) (i i₂ : Nat) (ns ns' : List Node)
    (hs : structEqList ns ns' = true) (q : String) :
    fdLookup (indexList ns'
        ((indexList ns (tIdx.map fun e => (e.1, setChildrenById i ns e.2))).map
          fun e => (e.1, setChildrenById i₂ ns' e.2))) q
      = fdLookup (indexList ns (tIdx.map fun e => (e.1, setChildrenById i ns e.2))) q := by
  have hE : entriesFd (nodeEntriesList ns) = entriesFd (nodeEntriesList ns') :=
    structEqList_entriesFd ns ns' hs
  rw [fdLookup_indexList ns' _ q, fdLookup_mutate, ← hE,
      fdLookup_indexList ns _ q]
  cases lastFd (entriesFd (nodeEntriesList ns)) q <;> simp [Option.or]

/-! The claims. -/

/-- Claim C1 fails on the code (code bug): after a `clear` the path index
does not equal the set of non-EmptyMarker nodes reachable from the root.
Evaluating the code on a root with one child `/a`: `clear` detaches the
child, but the index keeps the stale binding for `/a`, because the guard of
`removeFromIndex` tests the function object `isEmptyNode` instead of calling
it and therefore always returns without deleting anything. -/
theorem claim1_clear_leaves_stale_index :
    t0.clear ("") = .ok t0c ∧
    keys t0c.pathToNodeIndex = ["", "/a"] ∧
    reachableNonEmptyPaths t0c.root = [""] ∧
    "/a" ∈ keys t0c.pathToNodeIndex ∧
    "/a" ∉ reachableNonEmptyPaths t0c.root := by
  refine ⟨rfl, rfl, rfl, ?_, ?_⟩ <;> decide

/-- Claim C2 fails on the code (code bug): `clear(p)` followed by
`get(childPath)` for a former child does not produce a LookupMiss.  On the
concrete tree, after `clear("")` the stale index binding makes `get("/a")`
return the detached node with no error logged, instead of logging a miss and
returning null. -/
theorem claim2_get_after_clear_returns_detached_node :
    t0.clear ("") = .ok t0c ∧
    t0c.get ("/a") = (some aNode, []) ∧
    (t0c.get ("/a")).1 ≠ none := by
  refine ⟨rfl, rfl, ?_⟩
  intro h
  exact Option.noConfusion ((rfl : (t0c.get ("/a")).1 = some aNode) ▸ h)

/-- Claim C4 fails on the code (code bug): serializing and reloading is not
index-preserving for every reachable Indexed Tree.  After `clearNode("")`
the live index still binds the stale path `/a` (the `removeFromIndex`
defect), while the tree rebuilt from the persisted serialized root indexes
only what is reachable, so the reloaded index differs from the pre-serialize
index at `/a`. -/
theorem claim4_roundtrip_index_mismatch :
    h0.clearNode ("") = .ok h1 ∧
    initLocalStorageStateHolder h1.storage = .ok h2 ∧
    fdLookup h1.tree.pathToNodeIndex ("/a") = some aFd ∧
    fdLookup h2.tree.pathToNodeIndex ("/a") = none ∧
    fdLookup h1.tree.pathToNodeIndex ("") = some rootFd ∧
    fdLookup h2.tree.pathToNodeIndex ("") = some rootFd :=
  ⟨rfl, rfl, rfl, rfl, rfl, rfl⟩

/-- Claim C6 (amended): at state-holder initialization an absent persisted
value yields the fresh default root (empty directory at path `""`), which is
persisted immediately; a present value that parses into a node graph is
loaded and indexed, leaving the stored blob untouched; but a present value
that does not describe a node graph is not recovered — initialization
throws instead of building a fresh default. -/
theorem claim6_init_behaviour :
    (initLocalStorageStateHolder none
       = .ok ⟨getIndexedFileDataTree freshRootNode,
              some (encodeNode freshRootNode)⟩) ∧
    (∀ (j : Json) (r : Node) (k : Nat), decodeNode j 0 = some (r, k) →
       initLocalStorageStateHolder (some j)
         = .ok ⟨getIndexedFileDataTree r, some j⟩) ∧
    (∀ j : Json, decodeNode j 0 = none →
       initLocalStorageStateHolder (some j) = .error ()) := by
  refine ⟨rfl, ?_, ?_⟩
  · intro j r k h
    simp [initLocalStorageStateHolder, h]
  · intro j h
    simp [initLocalStorageStateHolder, h]

/-- Witness for the amended C6: loading a well-formed persisted root
succeeds, and a JSON string is rejected with an error. -/
theorem claim6_witness :
    decodeNode (encodeNode root0) 0 = some (root0, 2) ∧
    initLocalStorageStateHolder (some (encodeNode root0))
      = .ok ⟨getIndexedFileDataTree root0, some (encodeNode root0)⟩ ∧
    decodeNode (.str "y") 0 = none ∧
    initLocalStorageStateHolder (some (.str "y")) = .error () :=
  ⟨rfl, claim6_init_behaviour.2.1 (encodeNode root0) root0 2 rfl,
   rfl, claim6_init_behaviour.2.2 (.str "y") rfl⟩

/-- Counterexample to Claim C6 as stated: the corrupt persisted value `"x"`
(valid JSON, not a node graph — in JS `JSON.parse` succeeds and the indexing
traversal then throws on the missing `fileData`) is not replaced by a fresh
default root with no error surfaced; initialization throws. -/
theorem claim6_counterexample :
    initLocalStorageStateHolder (some (.str "x")) = Except.error () := rfl

/-- Claim C7 (amended): `get` never throws — on any path it either returns
the indexed node or logs and returns null — but `set` and `clear` (and with
them `addNodes` and `clearNode`) invoked with a path that is not in the
index throw a TypeError (the `null.fileData` access).  The throw happens
before any mutation, so the prior tree, index and persisted state are left
unchanged. -/
theorem claim7_missing_path_behaviour (t : IndexedFileDataTree) (p : String)
    (ns : List Node) (h : lookupEntry t.pathToNodeIndex p = none) :
    t.get p = (none, [missMsg p]) ∧
    t.set p ns = .error () ∧
    t.clear p = .error () ∧
    (∀ hold : LocalStorageStateHolder, hold.tree = t →
      hold.addNodes p ns = .error () ∧ hold.clearNode p = .error ()) := by
  refine ⟨by simp [IndexedFileDataTree.get, h],
    set_error_of_lookup_none t p ns h,
    clear_error_of_lookup_none t p h, ?_⟩
  intro hold ht
  constructor
  · simp [LocalStorageStateHolder.addNodes, ht,
          set_error_of_lookup_none t p ns h]
  · simp [LocalStorageStateHolder.clearNode, ht,
          clear_error_of_lookup_none t p h]

/-- Witness for the amended C7 at a concrete tree and missing path. -/
theorem claim7_witness :
    lookupEntry t0.pathToNodeIndex ("/missing") = none ∧
    (t0.get ("/missing") = (none, [missMsg ("/missing")]) ∧
     t0.set ("/missing") [] = .error () ∧
     t0.clear ("/missing") = .error () ∧
     (∀ hold : LocalStorageStateHolder, hold.tree = t0 →
       hold.addNodes ("/missing") [] = .error () ∧
       hold.clearNode ("/missing") = .error ())) :=
  ⟨rfl, claim7_missing_path_behaviour t0 ("/missing") [] rfl⟩

/-- Counterexample to Claim C7 as stated: `set` on a path that is not in the
index is fatal — `this.get` returns null and the `node.fileData` access
throws a TypeError (modelled as `Except.error`), rather than degrading to a
logged no-op. -/
theorem claim7_counterexample :
    IndexedFileDataTree.set t0 ("/missing") [] = Except.error () := rfl

/-- Claim C9: `get(path)` on a path with no indexed node logs the miss and
returns null to the caller instead of throwing; on an indexed path it
returns the indexed node and logs nothing. -/
theorem claim9_get_miss_logs_and_returns_null (t : IndexedFileDataTree)
    (p : String) :
    (lookupEntry t.pathToNodeIndex p = none →
      t.get p = (none, [missMsg p])) ∧
    (∀ n : Node, lookupEntry t.pathToNodeIndex p = some n →
      t.get p = (some n, [])) := by
  constructor
  · intro h; simp [IndexedFileDataTree.get, h]
  · intro n h; simp [IndexedFileDataTree.get, h]

/-- Witness for C9 at a concrete tree: a miss on `/nope`, a hit on `/a`. -/
theorem claim9_witness :
    (lookupEntry t0.pathToNodeIndex ("/nope") = none ∧
      t0.get ("/nope") = (none, [missMsg ("/nope")])) ∧
    (lookupEntry t0.pathToNodeIndex ("/a") = some aNode ∧
      t0.get ("/a") = (some aNode, [])) :=
  ⟨⟨rfl, (claim9_get_miss_logs_and_returns_null t0 ("/nope")).1 rfl⟩,
   ⟨rfl, (claim9_get_miss_logs_and_returns_null t0 ("/a")).2 aNode rfl⟩⟩

/-- Claim C3: `set` is idempotent with respect to the index.  For an indexed
expandable parent path, calling `set` twice with structurally equal children
sequences yields an index equivalent to that of a single call: the same path
set and the same `FileData` at every path (so no duplicate bindings and no
stale entries beyond those of the single call). -/
theorem claim3_set_reexpand_idempotent (t : IndexedFileDataTree) (p : String)
    (i : Nat) (fd : FileData) (cs ns ns' : List Node)
    (hp : lookupEntry t.pathToNodeIndex p = some (.node i fd cs))
    (_hexp : fd.expandable = true)
    (hs : structEqList ns ns' = true) :
    ∃ (n₁ : Node) (t₁ : IndexedFileDataTree) (n₂ : Node)
      (t₂ : IndexedFileDataTree),
      t.set p ns = .ok (n₁, t₁) ∧ t₁.set p ns' = .ok (n₂, t₂) ∧
      (∀ q, fdLookup t₂.pathToNodeIndex q = fdLookup t₁.pathToNodeIndex q) ∧
      (∀ q, q ∈ keys t₂.pathToNodeIndex ↔ q ∈ keys t₁.pathToNodeIndex) := by
  have h1 := set_eq_of_lookup t p i fd cs ns hp
  have hlX : lookupEntry
      (t.pathToNodeIndex.map fun e => (e.1, setChildrenById i ns e.2)) p
      = some (.node i fd ns) := by
    rw [lookup_map_snd, hp]
    simp [setChildrenById]
  have hl1 : lookupEntry (indexList ns
      (t.pathToNodeIndex.map fun e => (e.1, setChildrenById i ns e.2))) p
      = (lastVal (nodeEntriesList ns) p).or (some (.node i fd ns)) := by
    rw [lookup_indexList, hlX]
  cases hlv : lastVal (nodeEntriesList ns) p with
  | none =>
      have hl2 : lookupEntry (indexList ns
          (t.pathToNodeIndex.map fun e => (e.1, setChildrenById i ns e.2))) p
          = some (.node i fd ns) := by rw [hl1, hlv]; rfl
      have h2 := set_eq_of_lookup
        ⟨setChildrenById i ns t.root,
         indexList ns (t.pathToNodeIndex.map
           fun e => (e.1, setChildrenById i ns e.2))⟩
        p i fd ns ns' hl2
      have hfd : ∀ q, fdLookup (indexList ns'
            ((indexList ns (t.pathToNodeIndex.map
                fun e => (e.1, setChildrenById i ns e.2))).map
              fun e => (e.1, setChildrenById i ns' e.2))) q
          = fdLookup (indexList ns (t.pathToNodeIndex.map
              fun e => (e.1, setChildrenById i ns e.2))) q :=
        fun q => fdLookup_double_set t.pathToNodeIndex i i ns ns' hs q
      exact ⟨_, _, _, _, h1, h2, hfd, fun q => by
        rw [mem_keys_iff_fdLookup_isSome, mem_keys_iff_fdLookup_isSome, hfd q]⟩
  | some v =>
      have hvne : isEmptyNode v = false :=
        nodeEntriesList_values_nonEmpty ns (p, v) (lastVal_mem _ _ _ hlv)
      cases v with
      | empty j => simp [isEmptyNode] at hvne
      | node i₂ fd₂ cs₂ =>
          have hl2 : lookupEntry (indexList ns
              (t.pathToNodeIndex.map fun e => (e.1, setChildrenById i ns e.2))) p
              = some (.node i₂ fd₂ cs₂) := by rw [hl1, hlv]; rfl
          have h2 := set_eq_of_lookup
            ⟨setChildrenById i ns t.root,
             indexList ns (t.pathToNodeIndex.map
               fun e => (e.1, setChildrenById i ns e.2))⟩
            p i₂ fd₂ cs₂ ns' hl2
          have hfd : ∀ q, fdLookup (indexList ns'
                ((indexList ns (t.pathToNodeIndex.map
                    fun e => (e.1, setChildrenById i ns e.2))).map
                  fun e => (e.1, setChildrenById i₂ ns' e.2))) q
              = fdLookup (indexList ns (t.pathToNodeIndex.map
                  fun e => (e.1, setChildrenById i ns e.2))) q :=
            fun q => fdLookup_double_set t.pathToNodeIndex i i₂ ns ns' hs q
          exact ⟨_, _, _, _, h1, h2, hfd, fun q => by
            rw [mem_keys_iff_fdLookup_isSome, mem_keys_iff_fdLookup_isSome,
                hfd q]⟩

/-- Witness for C3 at a concrete tree: re-expanding the root twice with
structurally equal (but distinct) child objects. -/
theorem claim3_witness :
    lookupEntry t0.pathToNodeIndex ("") = some (.node 0 rootFd [aNode]) ∧
    rootFd.expandable = true ∧
    structEqList [.node 7 aFd []] [.node 9 aFd []] = true ∧
    (∃ (n₁ : Node) (t₁ : IndexedFileDataTree) (n₂ : Node)
       (t₂ : IndexedFileDataTree),
       t0.set ("") [.node 7 aFd []] = .ok (n₁, t₁) ∧
       t₁.set ("") [.node 9 aFd []] = .ok (n₂, t₂) ∧
       (∀ q, fdLookup t₂.pathToNodeIndex q = fdLookup t₁.pathToNodeIndex q) ∧
       (∀ q, q ∈ keys t₂.pathToNodeIndex ↔ q ∈ keys t₁.pathToNodeIndex)) :=
  ⟨rfl, rfl, rfl,
   claim3_set_reexpand_idempotent t0 ("") 0 rootFd [aNode]
     [.node 7 aFd []] [.node 9 aFd []] rfl rfl rfl⟩

/-- Claim C5: both data providers sort every children sequence before
delivering it — directories first, then other expandable nodes, then
non-expandable nodes, stably (each weight class keeps its original relative
order, which is exactly the filter decomposition); the static provider
delivers `jsSortNodes` of the stored children and the service provider
delivers `jsSortNodes` of the mapped records; and the spec's concrete
example sorts as `[directory, zip, text/plain]`. -/
theorem claim5_providers_sort :
    (∀ ns : List Node, noEmptyNode ns →
      jsSortNodes ns
        = ns.filter (fun n => n.fdOf.type == "directory")
          ++ ns.filter (fun n => !(n.fdOf.type == "directory") && n.fdOf.expandable)
          ++ ns.filter (fun n => !(n.fdOf.type == "directory") && !n.fdOf.expandable)) ∧
    (∀ (prov : JsonDataProvider) (p : String) (i : Nat) (fd : FileData)
       (cs : List Node),
      lookupEntry prov.tree.pathToNodeIndex p = some (.node i fd cs) →
      ∃ prov₂ : JsonDataProvider, prov.list p = .ok (jsSortNodes cs, prov₂)) ∧
    (∀ (data : List FileData) (k : Nat),
      mapToTreeNode data k = jsSortNodes (mapToTreeNodeAux data k)) ∧
    jsSortNodes [fileNode, dirNode, zipNode] = [dirNode, zipNode, fileNode] := by
  refine ⟨?_, ?_, fun _ _ => rfl, rfl⟩
  · intro ns h
    rw [jsSortNodes_decomp]
    rw [List.filter_congr fun n hn => weight_eq_two_iff n (h n hn),
        List.filter_congr fun n hn => weight_eq_one_iff n (h n hn),
        List.filter_congr fun n hn => weight_eq_zero_iff n (h n hn)]
  · intro prov p i fd cs hp
    exact ⟨⟨mutateState i (jsSortNodes cs) prov.tree⟩,
      by simp [JsonDataProvider.list, IndexedFileDataTree.get, hp]⟩

/-- Witness for C5: the filter decomposition evaluated on the spec's three
example nodes, and the static provider delivering the sorted children of the
concrete tree. -/
theorem claim5_witness :
    noEmptyNode [fileNode, dirNode, zipNode] ∧
    jsSortNodes [fileNode, dirNode, zipNode]
      = [fileNode, dirNode, zipNode].filter (fun n => n.fdOf.type == "directory")
        ++ [fileNode, dirNode, zipNode].filter
            (fun n => !(n.fdOf.type == "directory") && n.fdOf.expandable)
        ++ [fileNode, dirNode, zipNode].filter
            (fun n => !(n.fdOf.type == "directory") && !n.fdOf.expandable) ∧
    lookupEntry jsonProv0.tree.pathToNodeIndex ("")
      = some (.node 0 rootFd [aNode]) ∧
    (∃ prov₂ : JsonDataProvider,
      jsonProv0.list ("") = .ok (jsSortNodes [aNode], prov₂)) := by
  have hne : ∀ n ∈ [fileNode, dirNode, zipNode], isEmptyNode n = false := by
    decide
  exact ⟨hne,
    claim5_providers_sort.1 [fileNode, dirNode, zipNode] hne,
    rfl,
    claim5_providers_sort.2.1 jsonProv0 ("") 0 rootFd [aNode] rfl⟩

/-- Claim C8: when `list` delivers an empty sequence for an expanded
(indexed) path, exactly one EmptyMarker child is attached under that path;
the indexing recursion never inserts an EmptyMarker into the path index; and
collapsing the path afterwards completes without error. -/
theorem claim8_empty_expansion (t : IndexedFileDataTree) (p : String)
    (i k : Nat) (fd : FileData) (cs : List Node)
    (hp : lookupEntry t.pathToNodeIndex p = some (.node i fd cs)) :
    (∃ t₁ : IndexedFileDataTree,
      handleListSuccess t p [] k = .ok (.node i fd [.empty k], t₁) ∧
      lookupEntry t₁.pathToNodeIndex p = some (.node i fd [.empty k]) ∧
      ∃ t₂ : IndexedFileDataTree, t₁.clear p = .ok t₂) ∧
    (∀ (n : Node) (idx : Index), noEmptyValues idx →
      noEmptyValues (index n idx)) := by
  constructor
  · have hstep : handleListSuccess t p [] k = t.set p [.empty k] := rfl
    have h1 := set_eq_of_lookup t p i fd cs [.empty k] hp
    have hidx : indexList [.empty k]
        (t.pathToNodeIndex.map fun e => (e.1, setChildrenById i [.empty k] e.2))
        = t.pathToNodeIndex.map fun e => (e.1, setChildrenById i [.empty k] e.2) :=
      rfl
    have hl1 : lookupEntry
        (t.pathToNodeIndex.map fun e => (e.1, setChildrenById i [.empty k] e.2)) p
        = some (.node i fd [.empty k]) := by
      rw [lookup_map_snd, hp]
      simp [setChildrenById]
    refine ⟨_, by rw [hstep, h1], ?_, ?_⟩
    · rw [hidx]
      exact hl1
    · exact ⟨_, clear_eq_of_lookup _ p i fd [.empty k] (hidx ▸ hl1)⟩
  · exact fun n idx h => noEmptyValues_index n idx h

/-- Witness for C8: expanding the concrete root with an empty listing. -/
theorem claim8_witness :
    lookupEntry t0.pathToNodeIndex ("") = some (.node 0 rootFd [aNode]) ∧
    ((∃ t₁ : IndexedFileDataTree,
       handleListSuccess t0 ("") [] 5 = .ok (.node 0 rootFd [.empty 5], t₁) ∧
       lookupEntry t₁.pathToNodeIndex ("")
         = some (.node 0 rootFd [.empty 5]) ∧
       ∃ t₂ : IndexedFileDataTree, t₁.clear ("") = .ok t₂) ∧
     (∀ (n : Node) (idx : Index), noEmptyValues idx →
       noEmptyValues (index n idx))) :=
  ⟨rfl, claim8_empty_expansion t0 ("") 0 5 rootFd [aNode] rfl⟩

/-- Claim C10: `JsonDataProvider.list` sorts the children array stored in
the provider's internal tree in place and delivers that same array: after
the call the node at the path holds exactly the delivered (sorted) sequence,
and a second call for the same path observes the already-sorted sequence and
leaves the provider state fixed. -/
theorem claim10_list_sorts_in_place (prov : JsonDataProvider) (p : String)
    (i : Nat) (fd : FileData) (cs : List Node)
    (hp : lookupEntry prov.tree.pathToNodeIndex p = some (.node i fd cs)) :
    ∃ prov₂ : JsonDataProvider,
      prov.list p = .ok (jsSortNodes cs, prov₂) ∧
      lookupEntry prov₂.tree.pathToNodeIndex p
        = some (.node i fd (jsSortNodes cs)) ∧
      prov₂.list p = .ok (jsSortNodes cs, prov₂) := by
  have hlook : lookupEntry
      (mutateState i (jsSortNodes cs) prov.tree).pathToNodeIndex p
      = some (.node i fd (jsSortNodes cs)) := by
    simp only [mutateState]
    rw [lookup_map_snd, hp]
    simp [setChildrenById]
  refine ⟨⟨mutateState i (jsSortNodes cs) prov.tree⟩, ?_, hlook, ?_⟩
  · simp [JsonDataProvider.list, IndexedFileDataTree.get, hp]
  · simp only [JsonDataProvider.list, IndexedFileDataTree.get, hlook]
    rw [jsSortNodes_idem, mutateState_idem]

/-- Witness for C10: listing the concrete root twice. -/
theorem claim10_witness :
    lookupEntry jsonProv0.tree.pathToNodeIndex ("")
      = some (.node 0 rootFd [aNode]) ∧
    (∃ prov₂ : JsonDataProvider,
      jsonProv0.list ("") = .ok (jsSortNodes [aNode], prov₂) ∧
      lookupEntry prov₂.tree.pathToNodeIndex ("")
        = some (.node 0 rootFd (jsSortNodes [aNode])) ∧
      prov₂.list ("") = .ok (jsSortNodes [aNode], prov₂)) :=
  ⟨rfl, claim10_list_sorts_in_place jsonProv0 ("") 0 rootFd [aNode] rfl⟩

end FileTree
